import Mathlib

/-!
Verification of the axis/nan_policy vectorization dispatch layer of
`scipy/stats/_hypotests.py`, together with the guard structure of
`barnard_exact` and `boschloo_exact`.

Scalars are modelled as `Val` (a rational number or IEEE NaN); numpy arrays as
`NDArray` (a row-major data list plus a shape).  Kernel functions (the wrapped
hypothesis tests) are abstract values of type `List NDArray → Kwds → Except Err
(List Val)`: since every statement below quantifies over the kernel, equalities
that hold for every kernel also witness that the kernel was not invoked on the
relevant path.  Fallible Python code is modelled with `Except Err`.
-/

namespace Scipy

/-- Scalar value: a rational number or IEEE NaN. -/
inductive Val where
  | num (q : ℚ)
  | nan
deriving DecidableEq

/-- NaN detection on scalars (`np.isnan` elementwise). -/
def Val.isnan : Val → Bool
  | .nan => true
  | .num _ => false

/-- Row-major N-dimensional array: shape and flattened data. -/
structure NDArray where
  shape : List Nat
  data : List Val
deriving DecidableEq

/-- Number of dimensions (`ndarray.ndim`). -/
def NDArray.ndim (a : NDArray) : Nat := a.shape.length

/-- Total number of elements (`ndarray.size`). -/
def NDArray.size (a : NDArray) : Nat := a.shape.prod

/-- Value-level model of `ndarray.copy()`. -/
def NDArray.copy (a : NDArray) : NDArray := ⟨a.shape, a.data⟩

/-- Model of `ndarray.ravel()`: flatten to 1-D, keeping row-major data order. -/
def NDArray.ravel (a : NDArray) : NDArray := ⟨[a.shape.prod], a.data⟩

/-- Build a 1-D array from a data list. -/
def NDArray.ofList (xs : List Val) : NDArray := ⟨[xs.length], xs⟩

/-- Whether any element of the array is NaN (`np.isnan(a).any()`). -/
def NDArray.hasNan (a : NDArray) : Bool := a.data.any Val.isnan

/-- Model of `np.atleast_1d`: a 0-d array becomes shape `[1]`; otherwise unchanged. -/
def atleast_1d (a : NDArray) : NDArray := if a.shape = [] then ⟨[1], a.data⟩ else a

/-- Row-major flat index of a multi-index into a shape. -/
def flatIndex : List Nat → List Nat → Nat
  | _, [] => 0
  | [], _ => 0
  | _d :: ds, i :: is => i * ds.prod + flatIndex ds is

/-- All multi-indices of a shape, enumerated in row-major order. -/
def allIndices : List Nat → List (List Nat)
  | [] => [[]]
  | d :: ds => (List.range d).flatMap (fun i => (allIndices ds).map (fun idx => i :: idx))

/-- Element at a multi-index (out-of-range indices default to NaN; the wrapper
only ever uses in-range indices of well-formed arrays). -/
def NDArray.atIdx (a : NDArray) (idx : List Nat) : Val :=
  a.data.getD (flatIndex a.shape idx) Val.nan

/-- Array built from an element function, laid out in row-major order. -/
def NDArray.ofFn (shape : List Nat) (f : List Nat → Val) : NDArray :=
  ⟨shape, (allIndices shape).map f⟩

/-- Insert a value at a position of a list (append when the position is past the end). -/
def insertAt : Nat → Nat → List Nat → List Nat
  | 0, v, l => v :: l
  | _ + 1, v, [] => [v]
  | n + 1, v, x :: xs => x :: insertAt n v xs

/-- NaN-filled array of a given shape (`np.ones(shape) * np.nan`). -/
def nanFill (shape : List Nat) : NDArray := ⟨shape, List.replicate shape.prod Val.nan⟩

/-- Errors raised by the modelled Python code. -/
inductive Err where
  | typeError (func : String) (param : String)
  | valueError (msg : String)
  | keyError (param : String)
  | axisError
  | shapeError
  | badArgument (what : String)
deriving DecidableEq

/-- Normalize a possibly negative Python/numpy axis against a number of
dimensions (negative axes count from the end; out of range is an error). -/
def normAxis (a : Int) (nd : Nat) : Except Err Nat :=
  if 0 ≤ a then (if a < nd then .ok a.toNat else .error .axisError)
  else (if 0 ≤ a + nd then .ok (a + nd).toNat else .error .axisError)

/-- Python sequence indexing `l[i]` with negative-index support. -/
def pyIndex (l : List Nat) (i : Int) : Except Err Nat :=
  match normAxis i l.length with
  | .error e => .error e
  | .ok p => .ok (l.getD p 0)

/-- The three recognized missing-data policies. -/
inductive NanPolicy where
  | propagate
  | omit
  | raise
deriving DecidableEq

/-- Argument values that can be passed to the wrapper: sample arrays, an `axis`
value (an int or Python `None`), a `nan_policy` string, or an opaque
kernel-specific parameter. -/
inductive PyVal where
  | arr (a : NDArray)
  | axisVal (a : Option Int)
  | policyVal (p : NanPolicy)
  | other (tag : String)
deriving DecidableEq

/-- Keyword-argument dictionary, in insertion order, with unique keys
(Python guarantees unique keyword-argument names). -/
abbrev Kwds := List (String × PyVal)

/-- First-match key lookup in a keyword dictionary. -/
def dictLookup : Kwds → String → Option PyVal
  | [], _ => none
  | (k, v) :: rest, key => if k = key then some v else dictLookup rest key

/-- Remove all entries with the given key (for unique-key dicts this is `del`). -/
def dictErase (kwds : Kwds) (key : String) : Kwds :=
  kwds.filter (fun kv => kv.1 ≠ key)

/-- Model of `dict.pop(key)`: the value and the dictionary without the key. -/
def dictPop (kwds : Kwds) (key : String) : Option (PyVal × Kwds) :=
  match dictLookup kwds key with
  | some v => some (v, dictErase kwds key)
  | none => none

/-- Model of `d.update(upd)`: existing keys are overwritten in place, new keys
are appended in order. -/
def dictUpdate (d upd : Kwds) : Kwds :=
  (d.map (fun kv =>
    match dictLookup upd kv.1 with
    | some v => (kv.1, v)
    | none => kv))
  ++ upd.filter (fun kv => (dictLookup d kv.1).isNone)

deriving instance DecidableEq for Except

/-- Error-propagating map over a list (left to right, stopping at the first error). -/
def mapExcept (f : α → Except Err β) : List α → Except Err (List β)
  | [] => .ok []
  | a :: l =>
    match f a with
    | .error e => .error e
    | .ok b =>
      match mapExcept f l with
      | .error e => .error e
      | .ok bs => .ok (b :: bs)

/-- Message of the ValueError raised for NaN input under `nan_policy='raise'`. -/
def nanMessage : String := "The input contains nan values"

/-- Modelled from the spec: `scipy.stats.stats._contains_nan` is code of this
repository that is not under src/.  Per spec §4.3, detection is "any element is
NaN", and under the `raise` policy it "fails immediately with an InvalidInput
error, before any computation, if any sample contains NaN". -/
def _contains_nan (a : NDArray) (policy : NanPolicy) : Except Err Bool :=
  if a.hasNan = true ∧ policy = .raise then .error (.valueError nanMessage)
  else .ok a.hasNan

/-- Boolean-mask selection `xs[keep]` on 1-D data (masks have the data's length). -/
def maskKeep (xs : List Val) (keep : List Bool) : List Val :=
  ((xs.zip keep).filter (fun p => p.2)).map Prod.fst

/-- Model of `_remove_nans(samples, paired)` (src lines 23-35).  Unpaired: each
sample is filtered independently (`sample[~np.isnan(sample)]`).  Paired: the
NaN masks of all samples are OR-ed together and the single combined mask is
applied to every sample.  Paired samples are equal-length by precondition
(spec §4.3: "masks must be same-shape"); the mask combination is elementwise. -/
def _remove_nans (samples : List NDArray) (paired : Bool) : List NDArray :=
  if paired = false then
    samples.map (fun s => NDArray.ofList (s.data.filter (fun v => !v.isnan)))
  else
    let nans : List Bool :=
      match samples with
      | [] => []
      | s0 :: rest =>
        rest.foldl (fun m t => m.zipWith (· || ·) (t.data.map Val.isnan))
          (s0.data.map Val.isnan)
    let not_nans := nans.map (!·)
    samples.map (fun s => NDArray.ofList (maskKeep s.data not_nans))

/-- Combine two dimensions under numpy broadcasting (equal, or one of them 1). -/
def combineDim (a b : Nat) : Option Nat :=
  if a = b then some a else if a = 1 then some b else if b = 1 then some a else none

/-- Combine two aligned shape suffixes dimension by dimension. -/
def zipDims : List Nat → List Nat → Option (List Nat)
  | [], [] => some []
  | a :: as', b :: bs =>
    match combineDim a b, zipDims as' bs with
    | some c, some cs => some (c :: cs)
    | _, _ => none
  | _, _ => none

/-- Left-pad a shape with 1s to a given length (numpy right-aligns shapes). -/
def padLeftOnes (n : Nat) (l : List Nat) : List Nat :=
  List.replicate (n - l.length) 1 ++ l

/-- Broadcast two shapes under the standard numpy rules. -/
def broadcast2 (s t : List Nat) : Option (List Nat) :=
  zipDims (padLeftOnes (max s.length t.length) s) (padLeftOnes (max s.length t.length) t)

/-- Broadcast a list of shapes under the standard numpy rules. -/
def broadcastShapes : List (List Nat) → Option (List Nat)
  | [] => some []
  | s :: rest =>
    match broadcastShapes rest with
    | none => none
    | some t => broadcast2 s t

/-- Remove the axis dimension from a shape, with Python negative indexing. -/
def removeAxisDim (shape : List Nat) (axis : Int) : Option (List Nat) :=
  match normAxis axis shape.length with
  | .ok p => some (shape.eraseIdx p)
  | .error _ => none

/-- Modelled from the spec: `scipy.stats.stats._broadcast_array_shapes` is code
of this repository that is not under src/.  Per spec §4.2, it computes "the
broadcast output shape from every sample's non-axis dimensions". -/
def broadcast_array_shapes (samples : List NDArray) (axis : Int) : Option (List Nat) :=
  match samples.mapM (fun s => removeAxisDim s.shape axis) with
  | none => none
  | some reduced => broadcastShapes reduced

/-- Model of `_check_empty_inputs(samples, axis)` (src lines 38-49): if no
sample is empty return `none` ("perform the test"); otherwise a NaN-filled
array whose shape is the broadcast of all non-axis dimensions. -/
def _check_empty_inputs (samples : List NDArray) (axis : Int) : Except Err (Option NDArray) :=
  if ¬ (∃ s ∈ samples, s.size = 0) then .ok none
  else
    match broadcast_array_shapes samples axis with
    | none => .error .axisError
    | some sh => .ok (some (nanFill sh))

/-- Broadcast an array to a target shape of the same rank (dims equal or 1). -/
def broadcastTo (a : NDArray) (target : List Nat) : Except Err NDArray :=
  if a.shape.length = target.length
      ∧ ∀ p ∈ a.shape.zip target, p.1 = p.2 ∨ p.1 = 1 then
    .ok (NDArray.ofFn target (fun idx =>
      a.atIdx ((a.shape.zip idx).map (fun p => if p.1 = 1 then 0 else p.2))))
  else .error .shapeError

/-- Locate the part containing flat offset `j` in a list of part lengths:
returns the part number and the offset within it. -/
def findPart : List Nat → Nat → Nat × Nat
  | [], j => (0, j)
  | n :: rest, j =>
    if j < n then (0, j)
    else
      let pr := findPart rest (j - n)
      (pr.1 + 1, pr.2)

/-- Concatenate equal-rank parts along axis position `pos`; every part has
shape `outer` with its own length inserted at `pos`. -/
def concatAlong (pos : Nat) (parts : List NDArray) (outer : List Nat) (lens : List Nat) :
    NDArray :=
  NDArray.ofFn (insertAt pos lens.sum outer) (fun idx =>
    let j := idx.getD pos 0
    let pr := findPart lens j
    match parts.get? pr.1 with
    | some part => part.atIdx (idx.set pos pr.2)
    | none => Val.nan)

/-- Modelled from the spec: `scipy.stats.stats._broadcast_concatenate` is code
of this repository that is not under src/.  Per spec §4.4 steps 4-5, it
concatenates all samples along the target axis "using standard broadcasting
rules for the non-axis dimensions", failing with a shape error on mismatch.
The model requires all samples to share a rank (the only form the decorated
kernels and the claims exercise). -/
def broadcast_concatenate (samples : List NDArray) (axis : Int) : Except Err NDArray :=
  match samples with
  | [] => .error .shapeError
  | s0 :: rest =>
    if ∃ s ∈ rest, s.ndim ≠ s0.ndim then .error .shapeError
    else
      match normAxis axis s0.ndim with
      | .error e => .error e
      | .ok pos =>
        match broadcastShapes (samples.map (fun s => s.shape.eraseIdx pos)) with
        | none => .error .shapeError
        | some outer =>
          let lens := samples.map (fun s => s.shape.getD pos 0)
          match mapExcept
              (fun s => broadcastTo s (insertAt pos (s.shape.getD pos 0) outer)) samples with
          | .error e => .error e
          | .ok parts => .ok (concatAlong pos parts outer lens)

/-- The 1-D axis-slices of an array along axis position `pos`, enumerated in
the row-major order of the remaining dimensions — exactly the order in which
`np.apply_along_axis` visits slices after `np.moveaxis(x, axis, -1)`. -/
def slicesAlongAxis (x : NDArray) (pos : Nat) : List (List Val) :=
  (allIndices (x.shape.eraseIdx pos)).map
    (fun idx => (List.range (x.shape.getD pos 0)).map
      (fun j => x.atIdx (insertAt pos j idx)))

/-- Partial sums of the sample lengths (`np.cumsum(lengths)`). -/
def cumsum : List Nat → List Nat
  | [] => []
  | a :: rest => a :: (cumsum rest).map (a + ·)

/-- Model of `np.split(x, indices)` for 1-D data at ascending split points. -/
def npSplitGo (x : List Val) (prev : Nat) : List Nat → List (List Val)
  | [] => [x.drop prev]
  | i :: rest => ((x.drop prev).take (i - prev)) :: npSplitGo x i rest

/-- Split a flattened slice back into samples (`np.split(x, split_indices)[:n_samp]`). -/
def split_take (x : List Val) (split_indices : List Nat) (n_samp : Nat) : List NDArray :=
  ((npSplitGo x 0 split_indices).take n_samp).map NDArray.ofList

/-- Model of `is_too_small(samples)` (src lines 126-130): some sample has
length at most the factory's `too_small` threshold. -/
def is_too_small (tooSmall : Nat) (samples : List NDArray) : Bool :=
  samples.any (fun s => s.shape.headD 0 ≤ tooSmall)

/-- Configuration of `_vectorize_hypotest_factory` (src lines 86-120):
`default_axis` (`none` models Python `None`), `n_samples` (`none` models
Python `None`, i.e. an unbounded number of samples), `paired`, `too_small`.
The `result_object` of every decorated kernel in this file is a two-field
(statistic, pvalue) record, modelled as the field list `[v₁, v₂]`; the
`result_unpacker` of every decorated kernel extracts exactly those two fields
(`res[..., 0], res[..., 1]`). -/
structure FactoryConfig where
  default_axis : Option Int
  n_samples : Option Nat
  paired : Bool
  too_small : Nat
deriving DecidableEq

/-- A kernel: its name, its declared parameter names in order
(`inspect.signature`), and the function itself, which takes the sample arrays
plus the remaining keyword arguments and returns the result fields (statistic,
p-value, ...) or raises. -/
structure KernelSpec where
  name : String
  params : List String
  fn : List NDArray → Kwds → Except Err (List Val)

/-- Result of one wrapper invocation: either the kernel's native result fields
(fast path and native-axis path) or per-field arrays of the broadcast shape
(`result_object(*result_unpacker(res))` on the N-D path, and the NaN-filled
outputs of the empty-input guard). -/
inductive Output where
  | scalar (fields : List Val)
  | array (shape : List Nat) (statistic : List Val) (pvalue : List Val)
deriving DecidableEq

/-- Samples and configuration extracted by argument normalization. -/
structure NormArgs where
  samples : List NDArray
  axis : Option Int
  policy : NanPolicy
  kwds : Kwds
  vectorized : Bool
  n_samp : Nat

/-- Parameter-name list used for collision checking (src lines 150-154): the
kernel's declared parameters; when `n_samples` is `None` (`*args` kernels),
synthesized positional placeholder names `arg0, arg1, ...` replace the
variadic first parameter. -/
def wrapperParams (cfg : FactoryConfig) (k : KernelSpec) (args : List PyVal) : List String :=
  match cfg.n_samples with
  | none => ((List.range args.length).map (fun i => "arg" ++ toString i)) ++ k.params.drop 1
  | some _ => k.params

/-- Number of samples consumed (`n_samp = n_samples or len(args)`,
src line 155; Python `or` treats both `None` and `0` as falsy). -/
def wrapperNSamp (cfg : FactoryConfig) (args : List PyVal) : Nat :=
  match cfg.n_samples with
  | none => args.length
  | some n => if n = 0 then args.length else n

/-- Parameters bound both positionally and by keyword (src lines 156-157:
`set(d_args) & set(kwds)`, here in positional order). -/
def argKwdConflicts (cfg : FactoryConfig) (k : KernelSpec) (args : List PyVal) (kwds : Kwds) :
    List String :=
  (((wrapperParams cfg k args).zip args).map Prod.fst).filter
    (fun p => (dictLookup kwds p).isSome)

/-- Coerce an argument bound to a sample parameter to an array.  The wrapper
applies `np.atleast_1d` to it; non-numeric sample arguments fail (in Python the
failure would surface downstream inside the numeric code). -/
def pyToArr : PyVal → Except Err NDArray
  | .arr a => .ok a
  | _ => .error (.valueError "sample is not numeric")

/-- Pop the named sample parameters from the consolidated keyword dictionary
(`kwds.pop(param) for param in params[:n_samp]`, src lines 167-168); a missing
sample parameter is a KeyError. -/
def popSamples : List String → Kwds → Except Err (List PyVal × Kwds)
  | [], kwds => .ok ([], kwds)
  | name :: rest, kwds =>
    match dictPop kwds name with
    | none => .error (.keyError name)
    | some (v, kwds') =>
      match popSamples rest kwds' with
      | .error e => .error e
      | .ok (vs, kwds'') => .ok (v :: vs, kwds'')

/-- Pop `axis` (default `default_axis`), src line 170. -/
def popAxis (kwds : Kwds) (dflt : Option Int) : Except Err (Option Int × Kwds) :=
  match dictPop kwds "axis" with
  | none => .ok (dflt, kwds)
  | some (.axisVal a, rest) => .ok (a, rest)
  | some _ => .error (.badArgument "axis")

/-- Pop `nan_policy` (default `propagate`), src line 171. -/
def popPolicy (kwds : Kwds) : Except Err (NanPolicy × Kwds) :=
  match dictPop kwds "nan_policy" with
  | none => .ok (.propagate, kwds)
  | some (.policyVal p, rest) => .ok (p, rest)
  | some _ => .error (.badArgument "nan_policy")

/-- Argument normalization of `vectorize_hypotest_wrapper` (src lines 149-171):
collision check between positional and keyword arguments, consolidation,
sample extraction with `np.atleast_1d`, native-axis detection, and extraction
of `axis` and `nan_policy`. -/
def normalizeArgs (cfg : FactoryConfig) (k : KernelSpec) (args : List PyVal) (kwds : Kwds) :
    Except Err NormArgs :=
  let params := wrapperParams cfg k args
  let n_samp := wrapperNSamp cfg args
  match argKwdConflicts cfg k args kwds with
  | p :: _ => .error (.typeError k.name p)
  | [] =>
    let kwds := dictUpdate kwds (params.zip args)
    match popSamples (params.take n_samp) kwds with
    | .error e => .error e
    | .ok (vals, kwds) =>
      match mapExcept pyToArr vals with
      | .error e => .error e
      | .ok samples0 =>
        let vectorized := params.contains "axis"
        match popAxis kwds cfg.default_axis with
        | .error e => .error e
        | .ok (axisOpt, kwds) =>
          match popPolicy kwds with
          | .error e => .error e
          | .ok (policy, kwds) =>
            .ok ⟨samples0.map atleast_1d, axisOpt, policy, kwds, vectorized, n_samp⟩

/-- The 1-D fast path (src lines 179-206): per-sample NaN detection (which
raises under `nan_policy='raise'`), the all-NaN short-circuit under
`propagate`, NaN filtering under `omit`, then the direct kernel call. -/
def fastPath (cfg : FactoryConfig) (k : KernelSpec) (samples : List NDArray)
    (policy : NanPolicy) (kwds : Kwds) : Except Err Output :=
  match mapExcept (fun s => _contains_nan s policy) samples with
  | .error e => .error e
  | .ok contains_nans =>
    if contains_nans.any id = true ∧ policy = .propagate then
      .ok (.scalar [Val.nan, Val.nan])
    else
      let samples :=
        if contains_nans.any id = true ∧ policy = .omit then
          _remove_nans samples cfg.paired
        else samples
      match k.fn samples kwds with
      | .error e => .error e
      | .ok fields => .ok (.scalar fields)

/-- The per-slice function built under `omit` when the concatenated array
contains NaN (src lines 232-238): split the flattened slice back into samples,
filter NaNs, and return an all-NaN result instead of invoking the kernel when
any filtered sample is too small. -/
def hypotest_fun_omit (cfg : FactoryConfig) (k : KernelSpec) (split_indices : List Nat)
    (n_samp : Nat) (kwds : Kwds) (x : List Val) : Except Err (List Val) :=
  let samples := _remove_nans (split_take x split_indices n_samp) cfg.paired
  if is_too_small cfg.too_small samples = true then .ok [Val.nan, Val.nan]
  else k.fn samples kwds

/-- The per-slice function built under `propagate` when the concatenated array
contains NaN (src lines 241-246): an all-NaN result for a NaN-containing
slice, otherwise split and call the kernel. -/
def hypotest_fun_propagate (k : KernelSpec) (split_indices : List Nat)
    (n_samp : Nat) (kwds : Kwds) (x : List Val) : Except Err (List Val) :=
  if x.any Val.isnan = true then .ok [Val.nan, Val.nan]
  else k.fn (split_take x split_indices n_samp) kwds

/-- The per-slice function built when the concatenated array contains no NaN
(src lines 248-251): split and call the kernel. -/
def hypotest_fun_plain (k : KernelSpec) (split_indices : List Nat)
    (n_samp : Nat) (kwds : Kwds) (x : List Val) : Except Err (List Val) :=
  k.fn (split_take x split_indices n_samp) kwds

/-- Application of the per-slice function along the processed axis and
reassembly of the per-field output arrays (src lines 253-255:
`np.moveaxis`, `np.apply_along_axis`, `result_object(*result_unpacker(res))`). -/
def applySlices (hf : List Val → Except Err (List Val)) (x : NDArray) (pos : Nat) :
    Except Err Output :=
  match mapExcept hf (slicesAlongAxis x pos) with
  | .error e => .error e
  | .ok results =>
    .ok (.array (x.shape.eraseIdx pos)
      (results.map (fun r => r.getD 0 Val.nan))
      (results.map (fun r => r.getD 1 Val.nan)))

/-- The N-D broadcast path (src lines 208-255): empty-input guard, per-sample
axis lengths and split offsets, broadcast concatenation, whole-array NaN check
(which raises under `raise`), the native-axis delegation shortcut, selection
of the per-slice closure by policy, and per-slice application. -/
def ndPath (cfg : FactoryConfig) (k : KernelSpec) (samples : List NDArray) (axis : Int)
    (policy : NanPolicy) (kwds : Kwds) (vectorized : Bool) (n_samp : Nat) :
    Except Err Output :=
  match _check_empty_inputs samples axis with
  | .error e => .error e
  | .ok (some out) => .ok (.array out.shape out.data out.copy.data)
  | .ok none =>
    match mapExcept (fun s => pyIndex s.shape axis) samples with
    | .error e => .error e
    | .ok lengths =>
      let split_indices := cumsum lengths
      match broadcast_concatenate samples axis with
      | .error e => .error e
      | .ok x =>
        match _contains_nan x policy with
        | .error e => .error e
        | .ok contains_nan =>
          if vectorized = true ∧ contains_nan = false then
            match k.fn samples (("axis", PyVal.axisVal (some axis)) :: kwds) with
            | .error e => .error e
            | .ok fields => .ok (.scalar fields)
          else
            let hf :=
              if contains_nan = true ∧ policy = .omit then
                hypotest_fun_omit cfg k split_indices n_samp kwds
              else if contains_nan = true ∧ policy = .propagate then
                hypotest_fun_propagate k split_indices n_samp kwds
              else
                hypotest_fun_plain k split_indices n_samp kwds
            match normAxis axis x.ndim with
            | .error e => .error e
            | .ok pos => applySlices hf x pos

/-- Axis handling and path selection (src lines 174-180): `axis=None` ravels
every sample and resets the axis to 0; if every sample is then at most 1-D the
fast path runs, otherwise the N-D broadcast path. -/
def dispatch (cfg : FactoryConfig) (k : KernelSpec) (na : NormArgs) : Except Err Output :=
  let sa : List NDArray × Int :=
    match na.axis with
    | none => (na.samples.map NDArray.ravel, 0)
    | some a => (na.samples, a)
  if ∀ s ∈ sa.1, s.ndim ≤ 1 then
    fastPath cfg k sa.1 na.policy na.kwds
  else
    ndPath cfg k sa.1 sa.2 na.policy na.kwds na.vectorized na.n_samp

/-- Model of `vectorize_hypotest_wrapper` (src lines 134-255), the vectorized
entry point produced by `_vectorize_hypotest_factory` for a kernel. -/
def vectorize_hypotest_wrapper (cfg : FactoryConfig) (k : KernelSpec)
    (args : List PyVal) (kwds : Kwds) : Except Err Output :=
  match normalizeArgs cfg k args kwds with
  | .error e => .error e
  | .ok na => dispatch cfg k na

/-! ### Barnard's and Boschloo's exact tests (guard structure and two-sided combination)

The nuisance-parameter optimization (`scipy.optimize.shgo`) and the
hypergeometric CDF used by the one-sided computations are code of this
repository that is not under src/, and the spec (§1) explicitly treats the
numerics inside each kernel as out of scope.  They are therefore modelled as
abstract numeric cores (a function from the table and options to the exact
statistic/p-value pair); every theorem below quantifies over the core. -/

/-- A 2x2 contingency table `[[a, b], [c, d]]` of (signed) integers; the guard
rejects negative entries. -/
structure Table22 where
  a : Int
  b : Int
  c : Int
  d : Int
deriving DecidableEq

/-- Column sums `table.sum(axis=0)`: first column `a + c`, second `b + d`. -/
def Table22.colSum1 (t : Table22) : Int := t.a + t.c

/-- Second column sum. -/
def Table22.colSum2 (t : Table22) : Int := t.b + t.d

/-- Alternative hypothesis selector. -/
inductive Alternative where
  | twoSided
  | less
  | greater
deriving DecidableEq

/-- Recursion rank: the two-sided case recurses into the one-sided cases. -/
def Alternative.rank : Alternative → Nat
  | .twoSided => 1
  | _ => 0

/-- Result record of the exact tests (statistic, pvalue), with float fields
modelled as `Val`. -/
structure ExactResult where
  statistic : Val
  pvalue : Val
deriving DecidableEq

/-- IEEE `<` on modelled floats: comparisons involving NaN are false. -/
def valLt : Val → Val → Bool
  | .num a, .num b => a < b
  | _, _ => false

/-- Doubling a modelled float (`2 * pvalue`; NaN stays NaN). -/
def valTwice : Val → Val
  | .num a => .num (2 * a)
  | .nan => .nan

/-- Model of `barnard_exact(table, alternative, pooled, n)` (src lines
990-1189): the `n <= 0` guard, the non-negativity guard, the zero-column-sum
degenerate return `(NaN, 1.0)` (src lines 1131-1134), and otherwise the
statistic/p-value produced by the nuisance-parameter optimization, abstracted
as `core` (modelled from the spec: the optimization internals are outside
src/ and out of the spec's scope). -/
def barnard_exact (core : Table22 → Alternative → Bool → ℚ × ℚ) (t : Table22)
    (alt : Alternative) (pooled : Bool) (n : Int) : Except Err ExactResult :=
  if n ≤ 0 then .error (.valueError "Number of points `n` must be strictly positive")
  else if t.a < 0 ∨ t.b < 0 ∨ t.c < 0 ∨ t.d < 0 then
    .error (.valueError "All values in `table` must be nonnegative.")
  else if t.colSum1 = 0 ∨ t.colSum2 = 0 then .ok ⟨Val.nan, Val.num 1⟩
  else .ok ⟨Val.num (core t alt pooled).1, Val.num (core t alt pooled).2⟩

/-- Model of `boschloo_exact(table, alternative, n)` (src lines 1197-1398):
the `n <= 0` guard, the non-negativity guard, the zero-column-sum degenerate
return `(NaN, NaN)` (src lines 1339-1342); the one-sided branches produce the
statistic/p-value abstracted as `core` (modelled from the spec: the
hypergeometric CDF and optimization are outside src/ and out of the spec's
scope); the two-sided branch (src lines 1355-1367) recursively computes both
one-sided results, keeps the one with the strictly smaller p-value (ties keep
the `greater` side), and returns its statistic with twice its p-value, with
no clipping. -/
def boschloo_exact (core : Table22 → Alternative → ℚ × ℚ) (t : Table22)
    (alt : Alternative) (n : Int) : Except Err ExactResult :=
  if n ≤ 0 then .error (.valueError "Number of points `n` must be strictly positive")
  else if t.a < 0 ∨ t.b < 0 ∨ t.c < 0 ∨ t.d < 0 then
    .error (.valueError "All values in `table` must be nonnegative.")
  else if t.colSum1 = 0 ∨ t.colSum2 = 0 then .ok ⟨Val.nan, Val.nan⟩
  else
    match alt with
    | .less => .ok ⟨Val.num (core t .less).1, Val.num (core t .less).2⟩
    | .greater => .ok ⟨Val.num (core t .greater).1, Val.num (core t .greater).2⟩
    | .twoSided =>
      match boschloo_exact core t .less n, boschloo_exact core t .greater n with
      | .error e, _ => .error e
      | _, .error e => .error e
      | .ok boschloo_less, .ok boschloo_greater =>
        let res :=
          if valLt boschloo_less.pvalue boschloo_greater.pvalue = true then boschloo_less
          else boschloo_greater
        .ok ⟨res.statistic, valTwice res.pvalue⟩
termination_by alt.rank
decreasing_by
  · simp [Alternative.rank]
  · simp [Alternative.rank]

/-! ### Concrete instances used by witnesses and the counterexample -/

/-- A kernel with the given name and parameters that returns a constant
(statistic, pvalue) pair — a legitimate kernel instantiation, used to observe
whether the wrapper invokes the kernel on a given path. -/
def constKernel (name : String) (params : List String) (s p : ℚ) : KernelSpec :=
  ⟨name, params, fun _ _ => .ok [Val.num s, Val.num p]⟩

/-- Factory configuration of `epps_singleton_2samp`: two samples, unpaired,
`too_small=5`, default axis 0. -/
def eppsCfg : FactoryConfig := ⟨some 0, some 2, false, 5⟩

/-- Factory configuration of `cramervonmises`: one sample, unpaired,
`too_small=1`, default axis 0. -/
def cvmCfg : FactoryConfig := ⟨some 0, some 1, false, 1⟩

/-- Factory configuration of an `*args`-style kernel (`n_samples=None`). -/
def varargsCfg : FactoryConfig := ⟨some 0, none, false, 1⟩

/-- A 1-D numeric array. -/
def arr1 (xs : List ℚ) : NDArray := NDArray.ofList (xs.map Val.num)

/-- Factory configuration of `cramervonmises_2samp`: two samples, unpaired,
`too_small=1`, default axis 0. -/
def cvm2Cfg : FactoryConfig := ⟨some 0, some 2, false, 1⟩

/-- A 2x2 sample whose first element is NaN. -/
def x2n : NDArray := ⟨[2, 2], [Val.nan, Val.num 2, Val.num 3, Val.num 4]⟩

/-- A NaN-free 2x2 sample. -/
def x2c : NDArray := ⟨[2, 2], [Val.num 1, Val.num 2, Val.num 3, Val.num 4]⟩

/-- A second NaN-free 2x2 sample. -/
def y2 : NDArray := ⟨[2, 2], [Val.num 5, Val.num 6, Val.num 7, Val.num 8]⟩

/-- The broadcast concatenation of `x2n` and `y2` along axis 1. -/
def xConc2 : NDArray :=
  ⟨[2, 4], [Val.nan, Val.num 2, Val.num 5, Val.num 6,
            Val.num 3, Val.num 4, Val.num 7, Val.num 8]⟩

/-- A concrete one-sided numeric core for `boschloo_exact` whose one-sided
p-values both exceed 1/2 (so the unclipped two-sided p-value exceeds 1). -/
def coreW : Table22 → Alternative → ℚ × ℚ := fun _ alt =>
  match alt with
  | .less => (3/10, 7/10)
  | .greater => (2/5, 3/5)
  | .twoSided => (0, 0)

/-! ### Helper lemmas -/

theorem mapExcept_ok_get {α β : Type} {f : α → Except Err β} {l : List α} {r : List β}
    (h : mapExcept f l = .ok r) :
    ∀ i x, l.get? i = some x → ∃ y, r.get? i = some y ∧ f x = .ok y := by
  induction l generalizing r with
  | nil => intro i x hx; simp at hx
  | cons a l ih =>
    intro i x hx
    rw [mapExcept] at h
    cases hfa : f a with
    | error e => rw [hfa] at h; exact absurd h (by simp)
    | ok b =>
      rw [hfa] at h
      cases hml : mapExcept f l with
      | error e => rw [hml] at h; exact absurd h (by simp)
      | ok bs =>
        rw [hml] at h
        cases h
        cases i with
        | zero =>
          simp only [List.get?] at hx
          cases hx
          exact ⟨b, rfl, hfa⟩
        | succ i =>
          simp only [List.get?] at hx ⊢
          exact ih hml i x hx

theorem mapExcept_pyToArr (l : List NDArray) :
    mapExcept pyToArr (l.map PyVal.arr) = .ok l := by
  induction l with
  | nil => rfl
  | cons a l ih => simp [mapExcept, pyToArr, ih]

theorem contains_nan_of_ne_raise {p : NanPolicy} (s : NDArray) (hp : p ≠ .raise) :
    _contains_nan s p = .ok s.hasNan := by
  rw [_contains_nan, if_neg]
  intro ⟨_, h2⟩
  exact hp h2

theorem mapExcept_contains_nan_of_ne_raise {p : NanPolicy} (l : List NDArray)
    (hp : p ≠ .raise) :
    mapExcept (fun s => _contains_nan s p) l = .ok (l.map NDArray.hasNan) := by
  induction l with
  | nil => rfl
  | cons a l ih => simp [mapExcept, contains_nan_of_ne_raise a hp, ih]

theorem mapExcept_contains_nan_raise (l : List NDArray)
    (h : ∃ s ∈ l, s.hasNan = true) :
    mapExcept (fun s => _contains_nan s .raise) l = .error (.valueError nanMessage) := by
  induction l with
  | nil => simp at h
  | cons a l ih =>
    rw [mapExcept]
    by_cases ha : a.hasNan = true
    · rw [_contains_nan, if_pos ⟨ha, rfl⟩]
    · rw [_contains_nan, if_neg (fun hc => ha hc.1)]
      rcases h with ⟨s, hs, hnan⟩
      rcases List.mem_cons.mp hs with h1 | h1
      · exact absurd (h1 ▸ hnan) ha
      · rw [ih ⟨s, h1, hnan⟩]

theorem ndim_ravel (a : NDArray) : a.ravel.ndim = 1 := rfl

theorem hasNan_ravel (a : NDArray) : a.ravel.hasNan = a.hasNan := rfl

theorem hasNan_atleast_1d (a : NDArray) : (atleast_1d a).hasNan = a.hasNan := by
  rw [atleast_1d]
  split <;> rfl

theorem atleast_1d_of_ndim_pos {a : NDArray} (h : 1 ≤ a.ndim) : atleast_1d a = a := by
  rw [atleast_1d, if_neg]
  intro hc
  rw [NDArray.ndim, hc] at h
  simp at h

theorem ravel_of_ndim_one {a : NDArray} (h : a.ndim = 1) : a.ravel = a := by
  rcases a with ⟨shape, data⟩
  rw [NDArray.ndim] at h
  match shape, h with
  | [n], _ => simp [NDArray.ravel]

theorem ravel_atleast_1d (a : NDArray) : (atleast_1d a).ravel = a.ravel := by
  rw [atleast_1d]
  split
  · rename_i h
    simp [NDArray.ravel, h]
  · rfl

theorem map_atleast_1d_of_ndim_pos {l : List NDArray} (h : ∀ s ∈ l, 1 ≤ s.ndim) :
    l.map atleast_1d = l := by
  induction l with
  | nil => rfl
  | cons a l ih =>
    rw [List.map_cons, atleast_1d_of_ndim_pos (h a (List.mem_cons_self a l)),
      ih (fun s hs => h s (List.mem_cons_of_mem a hs))]

theorem dictLookup_append (a b : Kwds) (key : String) :
    dictLookup (a ++ b) key =
      match dictLookup a key with
      | some v => some v
      | none => dictLookup b key := by
  induction a with
  | nil => rfl
  | cons kv rest ih =>
    rcases kv with ⟨k, v⟩
    rw [List.cons_append, dictLookup, dictLookup]
    by_cases h : k = key
    · rw [if_pos h, if_pos h]
    · rw [if_neg h, if_neg h, ih]

theorem dictLookup_eq_none_of (l : Kwds) (key : String) (h : ∀ kv ∈ l, kv.1 ≠ key) :
    dictLookup l key = none := by
  induction l with
  | nil => rfl
  | cons kv rest ih =>
    rcases kv with ⟨k, v⟩
    rw [dictLookup, if_neg (h (k, v) (List.mem_cons_self _ _))]
    exact ih (fun kv hkv => h kv (List.mem_cons_of_mem _ hkv))

theorem ne_key_of_dictLookup_eq_none {l : Kwds} {key : String}
    (h : dictLookup l key = none) : ∀ kv ∈ l, kv.1 ≠ key := by
  induction l with
  | nil => intro kv hkv; simp at hkv
  | cons kv0 rest ih =>
    intro kv hkv
    rcases kv0 with ⟨k, v⟩
    rw [dictLookup] at h
    by_cases hk : k = key
    · rw [if_pos hk] at h; exact absurd h (by simp)
    · rw [if_neg hk] at h
      rcases List.mem_cons.mp hkv with h1 | h1
      · rw [h1]; exact hk
      · exact ih h kv h1

theorem dictLookup_isSome_of_mem {l : Kwds} {key : String} {v : PyVal}
    (h : (key, v) ∈ l) : (dictLookup l key).isSome = true := by
  induction l with
  | nil => simp at h
  | cons kv rest ih =>
    rcases kv with ⟨k, w⟩
    rw [dictLookup]
    by_cases hk : k = key
    · rw [if_pos hk]; rfl
    · rw [if_neg hk]
      rcases List.mem_cons.mp h with h1 | h1
      · cases h1; exact absurd rfl hk
      · exact ih h1

theorem dictErase_eq_self {l : Kwds} {key : String} (h : dictLookup l key = none) :
    dictErase l key = l := by
  rw [dictErase, List.filter_eq_self]
  intro kv hkv
  simpa using ne_key_of_dictLookup_eq_none h kv hkv

theorem mapOverride_eq_self (upd : Kwds) (d : Kwds)
    (h1 : ∀ kv ∈ d, dictLookup upd kv.1 = none) :
    (d.map (fun kv =>
      match dictLookup upd kv.1 with
      | some v => (kv.1, v)
      | none => kv)) = d := by
  induction d with
  | nil => rfl
  | cons kv rest ih =>
    rw [List.map_cons, h1 kv (List.mem_cons_self _ _)]
    rw [ih (fun kv hkv => h1 kv (List.mem_cons_of_mem _ hkv))]

theorem dictUpdate_disjoint {d upd : Kwds}
    (h1 : ∀ kv ∈ d, dictLookup upd kv.1 = none)
    (h2 : ∀ kv ∈ upd, (dictLookup d kv.1).isNone = true) :
    dictUpdate d upd = d ++ upd := by
  rw [dictUpdate, mapOverride_eq_self upd d h1, List.filter_eq_self.mpr h2]

theorem zip_eq_take_zip {α β : Type} (l1 : List α) (l2 : List β) :
    l1.zip l2 = (l1.take l2.length).zip l2 := by
  induction l1 generalizing l2 with
  | nil => simp
  | cons a l1 ih =>
    cases l2 with
    | nil => simp
    | cons b l2 => simp [List.zip_cons_cons, ih]

theorem map_fst_zip_of_le {α β : Type} (l1 : List α) (l2 : List β)
    (h : l1.length ≤ l2.length) : (l1.zip l2).map Prod.fst = l1 := by
  induction l1 generalizing l2 with
  | nil => simp
  | cons a l1 ih =>
    cases l2 with
    | nil => simp at h
    | cons b l2 =>
      simp only [List.length_cons, Nat.add_le_add_iff_right] at h
      simp [List.zip_cons_cons, ih l2 h]

theorem fst_mem_of_mem_zip {α β : Type} {l1 : List α} {l2 : List β} {p : α × β}
    (h : p ∈ l1.zip l2) : p.1 ∈ l1 := by
  induction l1 generalizing l2 with
  | nil => simp at h
  | cons a l1 ih =>
    cases l2 with
    | nil => simp at h
    | cons b l2 =>
      rw [List.zip_cons_cons] at h
      rcases List.mem_cons.mp h with h1 | h1
      · rw [h1]; exact List.mem_cons_self _ _
      · exact List.mem_cons_of_mem _ (ih h1)

theorem popSamples_append (names : List String) (vals : List PyVal) (pre : Kwds)
    (hlen : names.length = vals.length) (hnd : names.Nodup)
    (hpre : ∀ nm ∈ names, dictLookup pre nm = none) :
    popSamples names (pre ++ names.zip vals) = .ok (vals, pre) := by
  induction names generalizing vals with
  | nil =>
    cases vals with
    | nil => simp [popSamples]
    | cons v vs => simp at hlen
  | cons nm rest ih =>
    cases vals with
    | nil => simp at hlen
    | cons v vs =>
      have hLpre := hpre nm (List.mem_cons_self _ _)
      have hfind : dictLookup (pre ++ (nm, v) :: rest.zip vs) nm = some v := by
        rw [dictLookup_append, hLpre]
        show dictLookup ((nm, v) :: rest.zip vs) nm = some v
        rw [dictLookup, if_pos rfl]
      have herase : dictErase (pre ++ (nm, v) :: rest.zip vs) nm = pre ++ rest.zip vs := by
        rw [dictErase, List.filter_append, List.filter_cons]
        rw [if_neg (by simp)]
        have h1 : pre.filter (fun kv => kv.1 ≠ nm) = pre :=
          List.filter_eq_self.mpr (fun kv hkv => by
            simpa using ne_key_of_dictLookup_eq_none hLpre kv hkv)
        have h2 : (rest.zip vs).filter (fun kv => kv.1 ≠ nm) = rest.zip vs :=
          List.filter_eq_self.mpr (fun kv hkv => by
            have hmem : kv.1 ∈ rest := fst_mem_of_mem_zip hkv
            have : kv.1 ≠ nm := by
              intro hc
              rw [hc] at hmem
              exact (List.nodup_cons.mp hnd).1 hmem
            simpa using this)
        rw [h1, h2]
      have hpop : dictPop (pre ++ (nm, v) :: rest.zip vs) nm
          = some (v, pre ++ rest.zip vs) := by
        rw [dictPop, hfind, herase]
      rw [List.zip_cons_cons, popSamples, hpop]
      show (match popSamples rest (pre ++ rest.zip vs) with
        | .error e => .error e
        | .ok (vs', kwds'') => .ok (v :: vs', kwds'')) = Except.ok (v :: vs, pre)
      rw [ih vs (by simpa using hlen) (List.nodup_cons.mp hnd).2
        (fun x hx => hpre x (List.mem_cons_of_mem _ hx))]

theorem normalizeArgs_std (cfg : FactoryConfig) (k : KernelSpec) (samples : List NDArray)
    (av : Option Int) (p : NanPolicy) (extra : Kwds) (n : Nat)
    (hns : cfg.n_samples = some n) (hn0 : n ≠ 0)
    (hlen : samples.length = n) (hpar : n ≤ k.params.length)
    (hnd : (k.params.take n).Nodup)
    (hdisj : ∀ name ∈ k.params.take n,
      name ≠ "axis" ∧ name ≠ "nan_policy" ∧ dictLookup extra name = none)
    (hax : dictLookup extra "axis" = none)
    (hnp : dictLookup extra "nan_policy" = none) :
    normalizeArgs cfg k (samples.map PyVal.arr)
        (("axis", PyVal.axisVal av) :: ("nan_policy", PyVal.policyVal p) :: extra)
      = .ok ⟨samples.map atleast_1d, av, p, extra, k.params.contains "axis", n⟩ := by
  have hlenargs : (samples.map PyVal.arr).length = n := by simpa using hlen
  have hparams : wrapperParams cfg k (samples.map PyVal.arr) = k.params := by
    simp only [wrapperParams, hns]
  have hnsamp : wrapperNSamp cfg (samples.map PyVal.arr) = n := by
    simp only [wrapperNSamp, hns, if_neg hn0]
  have htklen : (k.params.take n).length = n := by
    rw [List.length_take]
    exact min_eq_left hpar
  have hzip : k.params.zip (samples.map PyVal.arr)
      = (k.params.take n).zip (samples.map PyVal.arr) := by
    rw [zip_eq_take_zip, hlenargs]
  have hkw0 : ∀ name, name ≠ "axis" → name ≠ "nan_policy" → dictLookup extra name = none →
      dictLookup (("axis", PyVal.axisVal av) :: ("nan_policy", PyVal.policyVal p) :: extra)
        name = none := by
    intro name h1 h2 h3
    rw [dictLookup, if_neg (Ne.symm h1), dictLookup, if_neg (Ne.symm h2), h3]
  have hkw0' : ∀ name ∈ k.params.take n,
      dictLookup (("axis", PyVal.axisVal av) :: ("nan_policy", PyVal.policyVal p) :: extra)
        name = none := by
    intro name hm
    rcases hdisj name hm with ⟨h1, h2, h3⟩
    exact hkw0 name h1 h2 h3
  have hkeys : (k.params.zip (samples.map PyVal.arr)).map Prod.fst = k.params.take n := by
    rw [hzip]
    exact map_fst_zip_of_le _ _ (by rw [htklen, hlenargs])
  have hcon : argKwdConflicts cfg k (samples.map PyVal.arr)
      (("axis", PyVal.axisVal av) :: ("nan_policy", PyVal.policyVal p) :: extra) = [] := by
    rw [argKwdConflicts, hparams, hkeys]
    rw [List.filter_eq_nil_iff]
    intro name hm
    rw [hkw0' name hm]
    simp
  have hupdate : dictUpdate
      (("axis", PyVal.axisVal av) :: ("nan_policy", PyVal.policyVal p) :: extra)
      (k.params.zip (samples.map PyVal.arr))
      = (("axis", PyVal.axisVal av) :: ("nan_policy", PyVal.policyVal p) :: extra)
        ++ (k.params.take n).zip (samples.map PyVal.arr) := by
    rw [hzip]
    apply dictUpdate_disjoint
    · intro kv hkv
      apply dictLookup_eq_none_of
      intro kv' hkv'
      have hm' : kv'.1 ∈ k.params.take n := fst_mem_of_mem_zip hkv'
      rcases hdisj kv'.1 hm' with ⟨h1, h2, h3⟩
      rcases List.mem_cons.mp hkv with h | h
      · rw [h]; exact h1
      rcases List.mem_cons.mp h with h' | h'
      · rw [h']; exact h2
      · exact fun hc => (ne_key_of_dictLookup_eq_none h3 kv h' (hc ▸ rfl)).elim
    · intro kv hkv
      have hm' : kv.1 ∈ k.params.take n := fst_mem_of_mem_zip hkv
      rw [hkw0' kv.1 hm']
      rfl
  have hpop : popSamples (k.params.take n)
      ((("axis", PyVal.axisVal av) :: ("nan_policy", PyVal.policyVal p) :: extra)
        ++ (k.params.take n).zip (samples.map PyVal.arr))
      = .ok (samples.map PyVal.arr,
          ("axis", PyVal.axisVal av) :: ("nan_policy", PyVal.policyVal p) :: extra) :=
    popSamples_append _ _ _ (by rw [htklen, hlenargs]) hnd hkw0'
  have haxerase : extra.filter (fun kv => kv.1 ≠ "axis") = extra :=
    List.filter_eq_self.mpr (fun kv hkv => by
      simpa using ne_key_of_dictLookup_eq_none hax kv hkv)
  have hnperase : extra.filter (fun kv => kv.1 ≠ "nan_policy") = extra :=
    List.filter_eq_self.mpr (fun kv hkv => by
      simpa using ne_key_of_dictLookup_eq_none hnp kv hkv)
  have hpopaxis : popAxis
      (("axis", PyVal.axisVal av) :: ("nan_policy", PyVal.policyVal p) :: extra)
      cfg.default_axis
      = .ok (av, ("nan_policy", PyVal.policyVal p) :: extra) := by
    have hfind : dictLookup
        (("axis", PyVal.axisVal av) :: ("nan_policy", PyVal.policyVal p) :: extra) "axis"
        = some (PyVal.axisVal av) := by
      rw [dictLookup, if_pos rfl]
    have herase : dictErase
        (("axis", PyVal.axisVal av) :: ("nan_policy", PyVal.policyVal p) :: extra) "axis"
        = ("nan_policy", PyVal.policyVal p) :: extra := by
      rw [dictErase, List.filter_cons, List.filter_cons]
      rw [if_neg (by simp), if_pos (by simp)]
      rw [haxerase]
    rw [popAxis, dictPop, hfind, herase]
  have hpoppolicy : popPolicy (("nan_policy", PyVal.policyVal p) :: extra)
      = .ok (p, extra) := by
    have hfind : dictLookup (("nan_policy", PyVal.policyVal p) :: extra) "nan_policy"
        = some (PyVal.policyVal p) := by
      rw [dictLookup, if_pos rfl]
    have herase : dictErase (("nan_policy", PyVal.policyVal p) :: extra) "nan_policy"
        = extra := by
      rw [dictErase, List.filter_cons]
      rw [if_neg (by simp)]
      rw [hnperase]
    rw [popPolicy, dictPop, hfind, herase]
  simp only [normalizeArgs, hparams, hnsamp, hcon, hupdate, hpop, mapExcept_pyToArr,
    hpopaxis, hpoppolicy]

theorem maskKeep_eq_filterRange (xs : List Val) (bs : List Bool)
    (h : xs.length = bs.length) :
    maskKeep xs bs
      = (((List.range bs.length).filter (fun i => bs.getD i false)).map
          (fun i => xs.getD i Val.nan)) := by
  induction xs generalizing bs with
  | nil =>
    cases bs with
    | nil => rfl
    | cons b bs => simp at h
  | cons x xs ih =>
    cases bs with
    | nil => simp at h
    | cons b bs =>
      have hlen : xs.length = bs.length := by simpa using h
      rw [List.length_cons, List.range_succ_eq_map]
      rw [List.filter_cons]
      have hfm : (List.filter (fun i => (b :: bs).getD i false)
            ((List.range bs.length).map Nat.succ))
          = ((List.range bs.length).filter (fun i => bs.getD i false)).map Nat.succ := by
        rw [List.filter_map]
        rfl
      have hstep : maskKeep (x :: xs) (b :: bs)
          = if b = true then x :: maskKeep xs bs else maskKeep xs bs := by
        rw [maskKeep, List.zip_cons_cons, List.filter_cons]
        by_cases hb : b = true
        · rw [if_pos (by simpa using hb), if_pos hb, List.map_cons]; rfl
        · rw [if_neg (by simpa using hb), if_neg hb]; rfl
      rw [hstep, hfm, ih bs hlen]
      by_cases hb : b = true
      · rw [if_pos hb, if_pos (by simpa using hb), List.map_cons, List.map_map]
        rfl
      · rw [if_neg hb, if_neg (by simpa using hb), List.map_map]
        rfl

theorem getD_zipWith_or (a b : List Bool) (i : Nat) (h : a.length = b.length) :
    (a.zipWith (· || ·) b).getD i false = (a.getD i false || b.getD i false) := by
  induction a generalizing b i with
  | nil =>
    cases b with
    | nil => simp
    | cons y b => simp at h
  | cons x a ih =>
    cases b with
    | nil => simp at h
    | cons y b =>
      cases i with
      | zero => rfl
      | succ i => simpa using ih b i (by simpa using h)

theorem getD_map_isnan (xs : List Val) (i : Nat) (hi : i < xs.length) :
    (xs.map Val.isnan).getD i false = (xs.getD i Val.nan).isnan := by
  induction xs generalizing i with
  | nil => simp at hi
  | cons x xs ih =>
    cases i with
    | zero => rfl
    | succ i => simpa using ih i (by simpa using hi)

theorem getD_map_not (bs : List Bool) (i : Nat) (hi : i < bs.length) :
    (bs.map (!·)).getD i false = !(bs.getD i false) := by
  induction bs generalizing i with
  | nil => simp at hi
  | cons b bs ih =>
    cases i with
    | zero => rfl
    | succ i => simpa using ih i (by simpa using hi)

theorem foldl_orMask_length (rest : List NDArray) (acc : List Bool) (m : Nat)
    (hacc : acc.length = m) (hrest : ∀ t ∈ rest, t.data.length = m) :
    (rest.foldl (fun mm t => mm.zipWith (· || ·) (t.data.map Val.isnan)) acc).length = m := by
  induction rest generalizing acc with
  | nil => simpa using hacc
  | cons t rest ih =>
    rw [List.foldl_cons]
    apply ih
    · rw [List.length_zipWith, List.length_map, hacc,
        hrest t (List.mem_cons_self _ _), Nat.min_self]
    · exact fun u hu => hrest u (List.mem_cons_of_mem _ hu)

theorem foldl_orMask_getD (rest : List NDArray) (acc : List Bool) (m i : Nat)
    (hacc : acc.length = m) (hrest : ∀ t ∈ rest, t.data.length = m) (hi : i < m) :
    (rest.foldl (fun mm t => mm.zipWith (· || ·) (t.data.map Val.isnan)) acc).getD i false
      = (acc.getD i false || rest.any (fun t => (t.data.getD i Val.nan).isnan)) := by
  induction rest generalizing acc with
  | nil => simp
  | cons t rest ih =>
    rw [List.foldl_cons, List.any_cons]
    have hlen : (acc.zipWith (· || ·) (t.data.map Val.isnan)).length = m := by
      rw [List.length_zipWith, List.length_map, hacc,
        hrest t (List.mem_cons_self _ _), Nat.min_self]
    rw [ih _ hlen (fun u hu => hrest u (List.mem_cons_of_mem _ hu))]
    rw [getD_zipWith_or _ _ _ (by rw [hacc, List.length_map, hrest t (List.mem_cons_self _ _)])]
    rw [getD_map_isnan _ _ (by rw [hrest t (List.mem_cons_self _ _)]; exact hi)]
    rw [Bool.or_assoc]

/-- C3: under `nan_policy='omit'` with `paired=True`, the samples are filtered
by the single combined mask (the OR of all per-sample NaN masks): every
filtered sample is the restriction of that sample to the common index list of
positions at which no sample has a NaN, so an index at which any sample has a
NaN is removed from every sample, and every retained index sits at the same
position in every filtered sample. -/
theorem remove_nans_paired_combined_mask (samples : List NDArray) (m : Nat)
    (hne : samples ≠ []) (hlen : ∀ s ∈ samples, s.data.length = m) :
    _remove_nans samples true
      = samples.map (fun s => NDArray.ofList
          ((((List.range m).filter
              (fun i => !(samples.any (fun t => (t.data.getD i Val.nan).isnan)))).map
            (fun i => s.data.getD i Val.nan)))) := by
  rw [_remove_nans.eq_def, if_neg (by simp)]
  cases samples with
  | nil => exact absurd rfl hne
  | cons s0 rest =>
    have hs0 : s0.data.length = m := hlen s0 (List.mem_cons_self _ _)
    have hrest : ∀ t ∈ rest, t.data.length = m :=
      fun t ht => hlen t (List.mem_cons_of_mem _ ht)
    have hnanslen :
        (rest.foldl (fun mm t => mm.zipWith (· || ·) (t.data.map Val.isnan))
          (s0.data.map Val.isnan)).length = m :=
      foldl_orMask_length rest _ m (by rw [List.length_map, hs0]) hrest
    apply List.map_congr_left
    intro s hs
    have hsm : s.data.length = m := hlen s hs
    have hmask := maskKeep_eq_filterRange s.data
      ((rest.foldl (fun mm t => mm.zipWith (· || ·) (t.data.map Val.isnan))
        (s0.data.map Val.isnan)).map (!·))
      (by rw [List.length_map, hnanslen, hsm])
    rw [hmask]
    have hrange : ((rest.foldl (fun mm t => mm.zipWith (· || ·) (t.data.map Val.isnan))
        (s0.data.map Val.isnan)).map (!·)).length = m := by
      rw [List.length_map, hnanslen]
    rw [hrange]
    have hfilter : (List.range m).filter
        (fun i => ((rest.foldl (fun mm t => mm.zipWith (· || ·) (t.data.map Val.isnan))
          (s0.data.map Val.isnan)).map (!·)).getD i false)
        = (List.range m).filter
          (fun i => !((s0 :: rest).any (fun t => (t.data.getD i Val.nan).isnan))) := by
      apply List.filter_congr
      intro i hi
      have him : i < m := List.mem_range.mp hi
      rw [getD_map_not _ _ (by rw [hnanslen]; exact him)]
      rw [foldl_orMask_getD rest _ m i (by rw [List.length_map, hs0]) hrest him]
      rw [getD_map_isnan _ _ (by rw [hs0]; exact him)]
      rw [List.any_cons]
    rw [hfilter]

theorem remove_nans_paired_combined_mask_witness :
    _remove_nans
        [⟨[3], [Val.num 1, Val.nan, Val.num 3]⟩, ⟨[3], [Val.num 4, Val.num 5, Val.nan]⟩]
        true
      = [⟨[1], [Val.num 1]⟩, ⟨[1], [Val.num 4]⟩] :=
  (remove_nans_paired_combined_mask
      [⟨[3], [Val.num 1, Val.nan, Val.num 3]⟩, ⟨[3], [Val.num 4, Val.num 5, Val.nan]⟩]
      3 (by decide) (by decide)).trans (by decide)

theorem wrapper_eq_dispatch {cfg : FactoryConfig} {k : KernelSpec} {args : List PyVal}
    {kwds : Kwds} {na : NormArgs} (h : normalizeArgs cfg k args kwds = .ok na) :
    vectorize_hypotest_wrapper cfg k args kwds = dispatch cfg k na := by
  simp only [vectorize_hypotest_wrapper, h]

theorem map_ravel_of_ndim_one {l : List NDArray} (h : ∀ s ∈ l, s.ndim = 1) :
    l.map NDArray.ravel = l := by
  induction l with
  | nil => rfl
  | cons a l ih =>
    rw [List.map_cons, ravel_of_ndim_one (h a (List.mem_cons_self a l)),
      ih (fun s hs => h s (List.mem_cons_of_mem a hs))]

theorem dispatch_fast_some (cfg : FactoryConfig) (k : KernelSpec) (samples : List NDArray)
    (a : Int) (policy : NanPolicy) (kwds : Kwds) (vect : Bool) (ns : Nat)
    (h : ∀ s ∈ samples, s.ndim ≤ 1) :
    dispatch cfg k ⟨samples, some a, policy, kwds, vect, ns⟩
      = fastPath cfg k samples policy kwds := by
  simp only [dispatch, if_pos h]

theorem dispatch_none (cfg : FactoryConfig) (k : KernelSpec) (samples : List NDArray)
    (policy : NanPolicy) (kwds : Kwds) (vect : Bool) (ns : Nat) :
    dispatch cfg k ⟨samples, none, policy, kwds, vect, ns⟩
      = fastPath cfg k (samples.map NDArray.ravel) policy kwds := by
  have h : ∀ s ∈ samples.map NDArray.ravel, s.ndim ≤ 1 := by
    intro s hs
    rcases List.mem_map.mp hs with ⟨t, _, rfl⟩
    exact le_of_eq (ndim_ravel t)
  simp only [dispatch, if_pos h]

theorem dispatch_nd (cfg : FactoryConfig) (k : KernelSpec) (samples : List NDArray)
    (a : Int) (policy : NanPolicy) (kwds : Kwds) (vect : Bool) (ns : Nat)
    (h : ¬ ∀ s ∈ samples, s.ndim ≤ 1) :
    dispatch cfg k ⟨samples, some a, policy, kwds, vect, ns⟩
      = ndPath cfg k samples a policy kwds vect ns := by
  simp only [dispatch, if_neg h]

theorem mapExcept_contains_nan_clean (l : List NDArray) (policy : NanPolicy)
    (h : ∀ s ∈ l, s.hasNan = false) :
    mapExcept (fun s => _contains_nan s policy) l = .ok (l.map NDArray.hasNan) := by
  induction l with
  | nil => rfl
  | cons a l ih =>
    rw [mapExcept]
    rw [show _contains_nan a policy = .ok a.hasNan from by
      rw [_contains_nan, if_neg (fun hc => by
        rw [h a (List.mem_cons_self _ _)] at hc
        exact absurd hc.1 (by simp))]]
    rw [ih (fun s hs => h s (List.mem_cons_of_mem _ hs)), List.map_cons]

theorem fastPath_clean (cfg : FactoryConfig) (k : KernelSpec) (samples : List NDArray)
    (policy : NanPolicy) (kwds : Kwds) (hclean : ∀ s ∈ samples, s.hasNan = false) :
    fastPath cfg k samples policy kwds = (k.fn samples kwds).map Output.scalar := by
  have hany : (samples.map NDArray.hasNan).any id = false := by
    rw [List.any_eq_false]
    intro b hb
    rcases List.mem_map.mp hb with ⟨s, hs, rfl⟩
    simpa using hclean s hs
  have hm := mapExcept_contains_nan_clean samples policy hclean
  cases hf : k.fn samples kwds with
  | error e => simp [fastPath, hm, hany, hf, Except.map]
  | ok fields => simp [fastPath, hm, hany, hf, Except.map]

theorem fastPath_propagate_nan (cfg : FactoryConfig) (k : KernelSpec)
    (samples : List NDArray) (kwds : Kwds) (hdirty : ∃ s ∈ samples, s.hasNan = true) :
    fastPath cfg k samples .propagate kwds = .ok (.scalar [Val.nan, Val.nan]) := by
  have hany : (samples.map NDArray.hasNan).any id = true := by
    rw [List.any_eq_true]
    rcases hdirty with ⟨s, hs, h⟩
    exact ⟨s.hasNan, List.mem_map_of_mem _ hs, by simpa using h⟩
  have hm := mapExcept_contains_nan_of_ne_raise samples
    (show NanPolicy.propagate ≠ .raise by simp)
  simp [fastPath, hm, hany]

theorem fastPath_raise_nan (cfg : FactoryConfig) (k : KernelSpec)
    (samples : List NDArray) (kwds : Kwds) (hdirty : ∃ s ∈ samples, s.hasNan = true) :
    fastPath cfg k samples .raise kwds = .error (.valueError nanMessage) := by
  simp only [fastPath, mapExcept_contains_nan_raise samples hdirty]

theorem ndPath_propagate (cfg : FactoryConfig) (k : KernelSpec) (samples : List NDArray)
    (a : Int) (kwds : Kwds) (vect : Bool) (ns : Nat) (lengths : List Nat) (x : NDArray)
    (pos : Nat)
    (hempty : ¬ ∃ s ∈ samples, s.size = 0)
    (hlens : mapExcept (fun s => pyIndex s.shape a) samples = .ok lengths)
    (hconc : broadcast_concatenate samples a = .ok x)
    (hx : x.hasNan = true)
    (hpos : normAxis a x.ndim = .ok pos) :
    ndPath cfg k samples a .propagate kwds vect ns
      = applySlices (hypotest_fun_propagate k (cumsum lengths) ns kwds) x pos := by
  have hc : _contains_nan x .propagate = .ok true := by
    rw [contains_nan_of_ne_raise x (by simp), hx]
  have hchk : _check_empty_inputs samples a = .ok none := by
    rw [_check_empty_inputs, if_pos hempty]
  simp only [ndPath, hchk, hlens, hconc, hc]
  simp [hpos]

theorem ndPath_omit (cfg : FactoryConfig) (k : KernelSpec) (samples : List NDArray)
    (a : Int) (kwds : Kwds) (vect : Bool) (ns : Nat) (lengths : List Nat) (x : NDArray)
    (pos : Nat)
    (hempty : ¬ ∃ s ∈ samples, s.size = 0)
    (hlens : mapExcept (fun s => pyIndex s.shape a) samples = .ok lengths)
    (hconc : broadcast_concatenate samples a = .ok x)
    (hx : x.hasNan = true)
    (hpos : normAxis a x.ndim = .ok pos) :
    ndPath cfg k samples a .omit kwds vect ns
      = applySlices (hypotest_fun_omit cfg k (cumsum lengths) ns kwds) x pos := by
  have hc : _contains_nan x .omit = .ok true := by
    rw [contains_nan_of_ne_raise x (by simp), hx]
  have hchk : _check_empty_inputs samples a = .ok none := by
    rw [_check_empty_inputs, if_pos hempty]
  simp only [ndPath, hchk, hlens, hconc, hc]
  simp [hpos]

theorem applySlices_ok_get {hf : List Val → Except Err (List Val)} {x : NDArray} {pos : Nat}
    {sh : List Nat} {stat pval : List Val} {i : Nat} {sl : List Val}
    (hres : applySlices hf x pos = .ok (.array sh stat pval))
    (hsl : (slicesAlongAxis x pos).get? i = some sl) :
    ∃ r, hf sl = .ok r ∧ stat.get? i = some (r.getD 0 Val.nan)
      ∧ pval.get? i = some (r.getD 1 Val.nan) := by
  rw [applySlices] at hres
  cases hm : mapExcept hf (slicesAlongAxis x pos) with
  | error e => rw [hm] at hres; exact absurd hres (by simp)
  | ok results =>
    rw [hm] at hres
    have h1 : (Output.array (x.shape.eraseIdx pos)
        (results.map (fun r => r.getD 0 Val.nan))
        (results.map (fun r => r.getD 1 Val.nan))) = .array sh stat pval := by
      simpa using hres
    rcases Output.array.inj h1 with ⟨_, hstat, hpval⟩
    rcases mapExcept_ok_get hm i sl hsl with ⟨r, hr, hfr⟩
    refine ⟨r, hfr, ?_, ?_⟩
    · rw [← hstat, List.get?_map, hr]; rfl
    · rw [← hpval, List.get?_map, hr]; rfl

/-- C8: a parameter supplied both positionally and by keyword raises a
TypeError naming the duplicated parameter immediately — before sample
extraction, NaN handling, or any kernel invocation (the conclusion holds for
every kernel function, every sample content and every nan_policy in the
call). For kernels with an unbounded sample count the synthesized placeholder
names `arg0, arg1, ...` participate in the collision check. -/
theorem conflict_typeerror_immediate (cfg : FactoryConfig) (k : KernelSpec)
    (args : List PyVal) (kwds : Kwds) (p : String) (rest : List String)
    (h : argKwdConflicts cfg k args kwds = p :: rest) :
    vectorize_hypotest_wrapper cfg k args kwds = .error (.typeError k.name p) := by
  simp only [vectorize_hypotest_wrapper, normalizeArgs, h]

theorem conflict_typeerror_immediate_witness :
    vectorize_hypotest_wrapper varargsCfg
        ⟨"fligner", ["samples", "center"], fun _ _ => .ok []⟩
        [PyVal.arr (arr1 [1, 2]), PyVal.arr (arr1 [3, 4])]
        [("arg1", PyVal.arr (arr1 [5, 6]))]
      = .error (.typeError "fligner" "arg1") :=
  conflict_typeerror_immediate varargsCfg
    ⟨"fligner", ["samples", "center"], fun _ _ => .ok []⟩
    [PyVal.arr (arr1 [1, 2]), PyVal.arr (arr1 [3, 4])]
    [("arg1", PyVal.arr (arr1 [5, 6]))] "arg1" [] (by decide)

/-- C1: for every decorated kernel (any factory configuration with a fixed
sample count, any kernel function) and every SampleSet of 1-D samples (scalars
enter as their `atleast_1d` one-element form) with no NaN anywhere, the
vectorized entry point returns exactly the kernel's own result on those
samples with the remaining keyword arguments, for each of the three
`nan_policy` values (the quantified `p`) and any `axis` value. -/
theorem clean_1d_vectorized_equals_kernel (cfg : FactoryConfig) (k : KernelSpec)
    (samples : List NDArray) (av : Option Int) (p : NanPolicy) (extra : Kwds) (n : Nat)
    (hns : cfg.n_samples = some n) (hn0 : n ≠ 0)
    (hlen : samples.length = n) (hpar : n ≤ k.params.length)
    (hnd : (k.params.take n).Nodup)
    (hdisj : ∀ name ∈ k.params.take n,
      name ≠ "axis" ∧ name ≠ "nan_policy" ∧ dictLookup extra name = none)
    (hax : dictLookup extra "axis" = none)
    (hnp : dictLookup extra "nan_policy" = none)
    (h1d : ∀ s ∈ samples, s.ndim = 1)
    (hclean : ∀ s ∈ samples, s.hasNan = false) :
    vectorize_hypotest_wrapper cfg k (samples.map PyVal.arr)
        (("axis", PyVal.axisVal av) :: ("nan_policy", PyVal.policyVal p) :: extra)
      = (k.fn samples extra).map Output.scalar := by
  rw [wrapper_eq_dispatch
    (normalizeArgs_std cfg k samples av p extra n hns hn0 hlen hpar hnd hdisj hax hnp)]
  rw [map_atleast_1d_of_ndim_pos (fun s hs => le_of_eq (h1d s hs).symm)]
  cases av with
  | none =>
    rw [dispatch_none, map_ravel_of_ndim_one h1d]
    exact fastPath_clean cfg k samples p extra hclean
  | some a =>
    rw [dispatch_fast_some cfg k samples a p extra _ n (fun s hs => le_of_eq (h1d s hs))]
    exact fastPath_clean cfg k samples p extra hclean

theorem clean_1d_vectorized_equals_kernel_witness :
    vectorize_hypotest_wrapper eppsCfg (constKernel "epps_singleton_2samp" ["x", "y", "t"] 5 6)
        [PyVal.arr (arr1 [1, 2]), PyVal.arr (arr1 [3, 4])]
        [("axis", PyVal.axisVal (some 0)), ("nan_policy", PyVal.policyVal .omit),
          ("t", PyVal.other "t0")]
      = .ok (.scalar [Val.num 5, Val.num 6]) :=
  (clean_1d_vectorized_equals_kernel eppsCfg
      (constKernel "epps_singleton_2samp" ["x", "y", "t"] 5 6)
      [arr1 [1, 2], arr1 [3, 4]] (some 0) .omit [("t", PyVal.other "t0")] 2
      rfl (by decide) rfl (by decide) (by decide) (by decide) rfl rfl
      (by decide) (by decide)).trans rfl

/-- C7: under `nan_policy='raise'`, a 1-D (non-broadcast) invocation in which
any sample contains a NaN fails with the InvalidInput ValueError; the
conclusion holds for every kernel function, so the kernel never runs and no
statistic is computed. -/
theorem raise_nan_1d_invalid_input (cfg : FactoryConfig) (k : KernelSpec)
    (samples : List NDArray) (av : Option Int) (extra : Kwds) (n : Nat)
    (hns : cfg.n_samples = some n) (hn0 : n ≠ 0)
    (hlen : samples.length = n) (hpar : n ≤ k.params.length)
    (hnd : (k.params.take n).Nodup)
    (hdisj : ∀ name ∈ k.params.take n,
      name ≠ "axis" ∧ name ≠ "nan_policy" ∧ dictLookup extra name = none)
    (hax : dictLookup extra "axis" = none)
    (hnp : dictLookup extra "nan_policy" = none)
    (h1d : ∀ s ∈ samples, s.ndim = 1)
    (hdirty : ∃ s ∈ samples, s.hasNan = true) :
    vectorize_hypotest_wrapper cfg k (samples.map PyVal.arr)
        (("axis", PyVal.axisVal av) :: ("nan_policy", PyVal.policyVal .raise) :: extra)
      = .error (.valueError nanMessage) := by
  rw [wrapper_eq_dispatch
    (normalizeArgs_std cfg k samples av .raise extra n hns hn0 hlen hpar hnd hdisj hax hnp)]
  rw [map_atleast_1d_of_ndim_pos (fun s hs => le_of_eq (h1d s hs).symm)]
  cases av with
  | none =>
    rw [dispatch_none, map_ravel_of_ndim_one h1d]
    exact fastPath_raise_nan cfg k samples extra hdirty
  | some a =>
    rw [dispatch_fast_some cfg k samples a .raise extra _ n (fun s hs => le_of_eq (h1d s hs))]
    exact fastPath_raise_nan cfg k samples extra hdirty

theorem raise_nan_1d_invalid_input_witness :
    vectorize_hypotest_wrapper cvmCfg
        (constKernel "cramervonmises" ["rvs", "cdf", "args"] 5 6)
        [PyVal.arr ⟨[2], [Val.nan, Val.num 1]⟩]
        [("axis", PyVal.axisVal (some 0)), ("nan_policy", PyVal.policyVal .raise)]
      = .error (.valueError nanMessage) :=
  raise_nan_1d_invalid_input cvmCfg
    (constKernel "cramervonmises" ["rvs", "cdf", "args"] 5 6)
    [⟨[2], [Val.nan, Val.num 1]⟩] (some 0) [] 1
    rfl (by decide) rfl (by decide) (by decide) (by decide) rfl rfl
    (by decide) (by decide)

/-- C2: under `nan_policy='propagate'`, when NaN is present the produced
Result is entirely NaN and the kernel is not invoked.  First part: on the 1-D
fast path, a SampleSet with any NaN yields the all-NaN two-field result,
for every kernel function.  Second part: on the N-D broadcast path, every
axis-slice of the concatenated data that contains a NaN has NaN in both
output fields at its position, for every kernel function. -/
theorem propagate_nan_all_nan_result :
    (∀ (cfg : FactoryConfig) (k : KernelSpec) (samples : List NDArray) (av : Option Int)
        (extra : Kwds) (n : Nat),
      cfg.n_samples = some n → n ≠ 0 → samples.length = n → n ≤ k.params.length →
      (k.params.take n).Nodup →
      (∀ name ∈ k.params.take n,
        name ≠ "axis" ∧ name ≠ "nan_policy" ∧ dictLookup extra name = none) →
      dictLookup extra "axis" = none → dictLookup extra "nan_policy" = none →
      (∀ s ∈ samples, s.ndim = 1) → (∃ s ∈ samples, s.hasNan = true) →
      vectorize_hypotest_wrapper cfg k (samples.map PyVal.arr)
          (("axis", PyVal.axisVal av) :: ("nan_policy", PyVal.policyVal .propagate) :: extra)
        = .ok (.scalar [Val.nan, Val.nan]))
    ∧ (∀ (cfg : FactoryConfig) (k : KernelSpec) (samples : List NDArray) (a : Int)
        (extra : Kwds) (n : Nat) (lengths : List Nat) (x : NDArray) (pos : Nat)
        (sh : List Nat) (stat pval : List Val) (i : Nat) (sl : List Val),
      cfg.n_samples = some n → n ≠ 0 → samples.length = n → n ≤ k.params.length →
      (k.params.take n).Nodup →
      (∀ name ∈ k.params.take n,
        name ≠ "axis" ∧ name ≠ "nan_policy" ∧ dictLookup extra name = none) →
      dictLookup extra "axis" = none → dictLookup extra "nan_policy" = none →
      (∀ s ∈ samples, 1 ≤ s.ndim) → ¬ (∀ s ∈ samples, s.ndim ≤ 1) →
      ¬ (∃ s ∈ samples, s.size = 0) →
      mapExcept (fun s => pyIndex s.shape a) samples = .ok lengths →
      broadcast_concatenate samples a = .ok x →
      x.hasNan = true →
      normAxis a x.ndim = .ok pos →
      vectorize_hypotest_wrapper cfg k (samples.map PyVal.arr)
          (("axis", PyVal.axisVal (some a)) ::
            ("nan_policy", PyVal.policyVal .propagate) :: extra)
        = .ok (.array sh stat pval) →
      (slicesAlongAxis x pos).get? i = some sl →
      sl.any Val.isnan = true →
      stat.get? i = some Val.nan ∧ pval.get? i = some Val.nan) := by
  constructor
  · intro cfg k samples av extra n hns hn0 hlen hpar hnd hdisj hax hnp h1d hdirty
    rw [wrapper_eq_dispatch
      (normalizeArgs_std cfg k samples av .propagate extra n hns hn0 hlen hpar hnd hdisj hax hnp)]
    rw [map_atleast_1d_of_ndim_pos (fun s hs => le_of_eq (h1d s hs).symm)]
    cases av with
    | none =>
      rw [dispatch_none, map_ravel_of_ndim_one h1d]
      exact fastPath_propagate_nan cfg k samples extra hdirty
    | some a =>
      rw [dispatch_fast_some cfg k samples a .propagate extra _ n
        (fun s hs => le_of_eq (h1d s hs))]
      exact fastPath_propagate_nan cfg k samples extra hdirty
  · intro cfg k samples a extra n lengths x pos sh stat pval i sl
      hns hn0 hlen hpar hnd hdisj hax hnp h1 hnf hemp hlens hconc hx hpos hres hsl hnan
    rw [wrapper_eq_dispatch
      (normalizeArgs_std cfg k samples (some a) .propagate extra n hns hn0 hlen hpar hnd hdisj hax hnp)]
      at hres
    rw [map_atleast_1d_of_ndim_pos h1] at hres
    rw [dispatch_nd cfg k samples a .propagate extra _ n hnf] at hres
    rw [ndPath_propagate cfg k samples a extra _ n lengths x pos hemp hlens hconc hx hpos]
      at hres
    rcases applySlices_ok_get hres hsl with ⟨r, hr, hstat, hpval⟩
    rw [hypotest_fun_propagate, if_pos hnan] at hr
    cases hr
    exact ⟨hstat, hpval⟩

theorem propagate_nan_all_nan_result_witness :
    (vectorize_hypotest_wrapper eppsCfg
        (constKernel "epps_singleton_2samp" ["x", "y", "t"] 5 6)
        [PyVal.arr ⟨[2], [Val.nan, Val.num 2]⟩, PyVal.arr (arr1 [3, 4])]
        [("axis", PyVal.axisVal (some 0)), ("nan_policy", PyVal.policyVal .propagate)]
      = .ok (.scalar [Val.nan, Val.nan]))
    ∧ ([Val.nan, Val.num 5].get? 0 = some Val.nan
        ∧ [Val.nan, Val.num 6].get? 0 = some Val.nan) := by
  constructor
  · exact propagate_nan_all_nan_result.1 eppsCfg
      (constKernel "epps_singleton_2samp" ["x", "y", "t"] 5 6)
      [⟨[2], [Val.nan, Val.num 2]⟩, arr1 [3, 4]] (some 0) [] 2
      rfl (by decide) rfl (by decide) (by decide) (by decide) rfl rfl
      (by decide) (by decide)
  · exact propagate_nan_all_nan_result.2 eppsCfg
      (constKernel "epps_singleton_2samp" ["x", "y", "t"] 5 6)
      [x2n, y2] 1 [] 2 [2, 2] xConc2 1 [2]
      [Val.nan, Val.num 5] [Val.nan, Val.num 6] 0
      [Val.nan, Val.num 2, Val.num 5, Val.num 6]
      rfl (by decide) rfl (by decide) (by decide) (by decide) rfl rfl
      (by decide) (by decide) (by decide) (by decide) (by decide) (by decide)
      (by decide) (by decide) (by decide) (by decide)

/-- C4: on the N-D broadcast path, an empty sample short-circuits the call
before any NaN-policy decision: for any axis, any `nan_policy` (the
quantified `p`, even `raise` with NaNs present elsewhere) and any kernel
function, the wrapper returns — without raising and without invoking the
kernel — a Result whose statistic and p-value fields are NaN-filled arrays of
the broadcast shape of the samples' non-axis dimensions (the p-value field is
built from `empty_output.copy()`, modelled value-level by `NDArray.copy`). -/
theorem empty_nd_broadcast_nan_output (cfg : FactoryConfig) (k : KernelSpec)
    (samples : List NDArray) (a : Int) (p : NanPolicy) (extra : Kwds) (n : Nat)
    (sh : List Nat)
    (hns : cfg.n_samples = some n) (hn0 : n ≠ 0)
    (hlen : samples.length = n) (hpar : n ≤ k.params.length)
    (hnd : (k.params.take n).Nodup)
    (hdisj : ∀ name ∈ k.params.take n,
      name ≠ "axis" ∧ name ≠ "nan_policy" ∧ dictLookup extra name = none)
    (hax : dictLookup extra "axis" = none)
    (hnp : dictLookup extra "nan_policy" = none)
    (h1 : ∀ s ∈ samples, 1 ≤ s.ndim)
    (hnf : ¬ ∀ s ∈ samples, s.ndim ≤ 1)
    (hemp : ∃ s ∈ samples, s.size = 0)
    (hsh : broadcast_array_shapes samples a = some sh) :
    vectorize_hypotest_wrapper cfg k (samples.map PyVal.arr)
        (("axis", PyVal.axisVal (some a)) :: ("nan_policy", PyVal.policyVal p) :: extra)
      = .ok (.array sh (List.replicate sh.prod Val.nan) (List.replicate sh.prod Val.nan)) := by
  rw [wrapper_eq_dispatch
    (normalizeArgs_std cfg k samples (some a) p extra n hns hn0 hlen hpar hnd hdisj hax hnp)]
  rw [map_atleast_1d_of_ndim_pos h1]
  rw [dispatch_nd cfg k samples a p extra _ n hnf]
  have hchk : _check_empty_inputs samples a = .ok (some (nanFill sh)) := by
    rw [_check_empty_inputs, if_neg (not_not_intro hemp), hsh]
  simp [ndPath, hchk, nanFill, NDArray.copy]

theorem empty_nd_broadcast_nan_output_witness :
    vectorize_hypotest_wrapper cvmCfg
        (constKernel "cramervonmises" ["rvs", "cdf", "args"] 5 6)
        [PyVal.arr ⟨[0, 5], []⟩]
        [("axis", PyVal.axisVal (some 1)), ("nan_policy", PyVal.policyVal .raise)]
      = .ok (.array [0] [] []) :=
  (empty_nd_broadcast_nan_output cvmCfg
      (constKernel "cramervonmises" ["rvs", "cdf", "args"] 5 6)
      [⟨[0, 5], []⟩] 1 .raise [] 1 [0]
      rfl (by decide) rfl (by decide) (by decide) (by decide) rfl rfl
      (by decide) (by decide) (by decide) (by decide)).trans (by decide)

/-- C5 counterexample to the claim as stated: under `nan_policy='omit'` with a
NaN-free N-D input whose samples are undersized (length 2 along the axis with
`too_small=5`), the post-filter samples of every slice satisfy the claim's
size premise, yet the wrapper invokes the kernel for every slice (the output
carries the kernel's constant values, not NaN), because the `omit` filtering
closure — and with it the `is_too_small` check — is only installed when the
concatenated data contains a NaN. -/
theorem omit_undersized_counterexample :
    is_too_small eppsCfg.too_small
        (_remove_nans
          (split_take [Val.num 1, Val.num 2, Val.num 5, Val.num 6] (cumsum [2, 2]) 2)
          eppsCfg.paired) = true
    ∧ vectorize_hypotest_wrapper eppsCfg
        (constKernel "epps_singleton_2samp" ["x", "y", "t"] 5 6)
        [PyVal.arr x2c, PyVal.arr y2]
        [("axis", PyVal.axisVal (some 1)), ("nan_policy", PyVal.policyVal .omit)]
      = .ok (.array [2] [Val.num 5, Val.num 5] [Val.num 6, Val.num 6]) := by
  constructor
  · decide
  · decide

/-- C5 (amended): on the N-D broadcast path under `nan_policy='omit'`,
provided the concatenated data contains at least one NaN (so that the omit
filtering closure is installed — the amendment forced by the counterexample):
for every axis-slice, if after NaN filtering any resulting sample has size at
most the kernel's `too_small` threshold, the slice's entries in both Result
fields are NaN, for every kernel function (the kernel is not invoked for that
slice and no error is raised for it). -/
theorem omit_undersized_slice_nan (cfg : FactoryConfig) (k : KernelSpec)
    (samples : List NDArray) (a : Int) (extra : Kwds) (n : Nat) (lengths : List Nat)
    (x : NDArray) (pos : Nat) (sh : List Nat) (stat pval : List Val) (i : Nat)
    (sl : List Val)
    (hns : cfg.n_samples = some n) (hn0 : n ≠ 0)
    (hlen : samples.length = n) (hpar : n ≤ k.params.length)
    (hnd : (k.params.take n).Nodup)
    (hdisj : ∀ name ∈ k.params.take n,
      name ≠ "axis" ∧ name ≠ "nan_policy" ∧ dictLookup extra name = none)
    (hax : dictLookup extra "axis" = none)
    (hnp : dictLookup extra "nan_policy" = none)
    (h1 : ∀ s ∈ samples, 1 ≤ s.ndim)
    (hnf : ¬ ∀ s ∈ samples, s.ndim ≤ 1)
    (hemp : ¬ ∃ s ∈ samples, s.size = 0)
    (hlens : mapExcept (fun s => pyIndex s.shape a) samples = .ok lengths)
    (hconc : broadcast_concatenate samples a = .ok x)
    (hx : x.hasNan = true)
    (hpos : normAxis a x.ndim = .ok pos)
    (hres : vectorize_hypotest_wrapper cfg k (samples.map PyVal.arr)
        (("axis", PyVal.axisVal (some a)) :: ("nan_policy", PyVal.policyVal .omit) :: extra)
      = .ok (.array sh stat pval))
    (hsl : (slicesAlongAxis x pos).get? i = some sl)
    (hsmall : is_too_small cfg.too_small
        (_remove_nans (split_take sl (cumsum lengths) n) cfg.paired) = true) :
    stat.get? i = some Val.nan ∧ pval.get? i = some Val.nan := by
  rw [wrapper_eq_dispatch
    (normalizeArgs_std cfg k samples (some a) .omit extra n hns hn0 hlen hpar hnd hdisj hax hnp)]
    at hres
  rw [map_atleast_1d_of_ndim_pos h1] at hres
  rw [dispatch_nd cfg k samples a .omit extra _ n hnf] at hres
  rw [ndPath_omit cfg k samples a extra _ n lengths x pos hemp hlens hconc hx hpos] at hres
  rcases applySlices_ok_get hres hsl with ⟨r, hr, hstat, hpval⟩
  simp only [hypotest_fun_omit] at hr
  rw [if_pos hsmall] at hr
  cases hr
  exact ⟨hstat, hpval⟩

theorem omit_undersized_slice_nan_witness :
    (vectorize_hypotest_wrapper cvm2Cfg
        (constKernel "cramervonmises_2samp" ["x", "y", "method"] 5 6)
        [PyVal.arr x2n, PyVal.arr y2]
        [("axis", PyVal.axisVal (some 1)), ("nan_policy", PyVal.policyVal .omit)]
      = .ok (.array [2] [Val.nan, Val.num 5] [Val.nan, Val.num 6]))
    ∧ ([Val.nan, Val.num 5].get? 0 = some Val.nan
        ∧ [Val.nan, Val.num 6].get? 0 = some Val.nan) :=
  ⟨by decide,
    omit_undersized_slice_nan cvm2Cfg
      (constKernel "cramervonmises_2samp" ["x", "y", "method"] 5 6)
      [x2n, y2] 1 [] 2 [2, 2] xConc2 1 [2]
      [Val.nan, Val.num 5] [Val.nan, Val.num 6] 0
      [Val.nan, Val.num 2, Val.num 5, Val.num 6]
      rfl (by decide) rfl (by decide) (by decide) (by decide) rfl rfl
      (by decide) (by decide) (by decide) (by decide) (by decide) (by decide)
      (by decide) (by decide) (by decide) (by decide)⟩

/-- C6: for every decorated kernel and input, invoking the vectorized entry
point with `axis=None` equals invoking it with `axis=0` after raveling every
sample (first part); and with `axis=None` the dispatcher always reduces to
the 1-D fast path applied to the raveled samples — never the N-D broadcast
machinery (second part). -/
theorem axis_none_equals_ravel_axis0 :
    (∀ (cfg : FactoryConfig) (k : KernelSpec) (samples : List NDArray)
        (pv : NanPolicy) (extra : Kwds) (n : Nat),
      cfg.n_samples = some n → n ≠ 0 → samples.length = n → n ≤ k.params.length →
      (k.params.take n).Nodup →
      (∀ name ∈ k.params.take n,
        name ≠ "axis" ∧ name ≠ "nan_policy" ∧ dictLookup extra name = none) →
      dictLookup extra "axis" = none → dictLookup extra "nan_policy" = none →
      vectorize_hypotest_wrapper cfg k (samples.map PyVal.arr)
          (("axis", PyVal.axisVal none) :: ("nan_policy", PyVal.policyVal pv) :: extra)
        = vectorize_hypotest_wrapper cfg k ((samples.map NDArray.ravel).map PyVal.arr)
            (("axis", PyVal.axisVal (some 0)) :: ("nan_policy", PyVal.policyVal pv) :: extra))
    ∧ (∀ (cfg : FactoryConfig) (k : KernelSpec) (samples : List NDArray)
        (policy : NanPolicy) (kwds : Kwds) (vect : Bool) (ns : Nat),
      dispatch cfg k ⟨samples, none, policy, kwds, vect, ns⟩
        = fastPath cfg k (samples.map NDArray.ravel) policy kwds) := by
  constructor
  · intro cfg k samples pv extra n hns hn0 hlen hpar hnd hdisj hax hnp
    rw [wrapper_eq_dispatch
      (normalizeArgs_std cfg k samples none pv extra n hns hn0 hlen hpar hnd hdisj hax hnp)]
    rw [wrapper_eq_dispatch
      (normalizeArgs_std cfg k (samples.map NDArray.ravel) (some 0) pv extra n hns hn0
        (by simpa using hlen) hpar hnd hdisj hax hnp)]
    have h1 : ∀ s ∈ samples.map NDArray.ravel, s.ndim = 1 := by
      intro s hs
      rcases List.mem_map.mp hs with ⟨t, _, rfl⟩
      exact ndim_ravel t
    rw [dispatch_none]
    have hr1 : (samples.map atleast_1d).map NDArray.ravel = samples.map NDArray.ravel := by
      rw [List.map_map]
      exact List.map_congr_left (fun s _ => ravel_atleast_1d s)
    rw [hr1, map_atleast_1d_of_ndim_pos (fun s hs => le_of_eq (h1 s hs).symm)]
    rw [dispatch_fast_some cfg k (samples.map NDArray.ravel) 0 pv extra _ n
      (fun s hs => le_of_eq (h1 s hs))]
  · intro cfg k samples policy kwds vect ns
    exact dispatch_none cfg k samples policy kwds vect ns

theorem axis_none_equals_ravel_axis0_witness :
    (vectorize_hypotest_wrapper eppsCfg
        (constKernel "epps_singleton_2samp" ["x", "y", "t"] 5 6)
        [PyVal.arr x2c, PyVal.arr y2]
        [("axis", PyVal.axisVal none), ("nan_policy", PyVal.policyVal .propagate)]
      = vectorize_hypotest_wrapper eppsCfg
          (constKernel "epps_singleton_2samp" ["x", "y", "t"] 5 6)
          [PyVal.arr x2c.ravel, PyVal.arr y2.ravel]
          [("axis", PyVal.axisVal (some 0)), ("nan_policy", PyVal.policyVal .propagate)])
    ∧ dispatch eppsCfg (constKernel "epps_singleton_2samp" ["x", "y", "t"] 5 6)
        ⟨[x2c, y2], none, .propagate, [], false, 2⟩
      = fastPath eppsCfg (constKernel "epps_singleton_2samp" ["x", "y", "t"] 5 6)
          [x2c.ravel, y2.ravel] .propagate [] :=
  ⟨axis_none_equals_ravel_axis0.1 eppsCfg
      (constKernel "epps_singleton_2samp" ["x", "y", "t"] 5 6)
      [x2c, y2] .propagate [] 2
      rfl (by decide) rfl (by decide) (by decide) (by decide) rfl rfl,
    axis_none_equals_ravel_axis0.2 eppsCfg
      (constKernel "epps_singleton_2samp" ["x", "y", "t"] 5 6)
      [x2c, y2] .propagate [] false 2⟩

/-- C9: for every 2x2 table passing the guards (positive `n`, non-negative
entries, no zero column sum) and every one-sided numeric core,
`boschloo_exact` with `alternative='two-sided'` returns exactly twice the
smaller of the two one-sided p-values together with the statistic of the side
attaining it (ties keep the `greater` side, whose p-value equals the
minimum); the doubled value is not clipped, so it exceeds 1 whenever the
smaller one-sided p-value exceeds 1/2. -/
theorem boschloo_two_sided_double_min (core : Table22 → Alternative → ℚ × ℚ)
    (t : Table22) (n : Int)
    (hn : 0 < n) (ha : 0 ≤ t.a) (hb : 0 ≤ t.b) (hc : 0 ≤ t.c) (hd : 0 ≤ t.d)
    (h1 : t.colSum1 ≠ 0) (h2 : t.colSum2 ≠ 0) :
    boschloo_exact core t .twoSided n
      = .ok ⟨Val.num (if (core t .less).2 < (core t .greater).2
              then (core t .less).1 else (core t .greater).1),
            Val.num (2 * min (core t .less).2 (core t .greater).2)⟩
    ∧ (1/2 < min (core t .less).2 (core t .greater).2 →
        1 < 2 * min (core t .less).2 (core t .greater).2) := by
  have hng : ¬ n ≤ 0 := not_le.mpr hn
  have hneg : ¬ (t.a < 0 ∨ t.b < 0 ∨ t.c < 0 ∨ t.d < 0) := by
    push_neg
    exact ⟨ha, hb, hc, hd⟩
  have hz : ¬ (t.colSum1 = 0 ∨ t.colSum2 = 0) := by simp [h1, h2]
  have hless : boschloo_exact core t .less n
      = .ok ⟨Val.num (core t .less).1, Val.num (core t .less).2⟩ := by
    rw [boschloo_exact, if_neg hng, if_neg hneg, if_neg hz]
  have hgreater : boschloo_exact core t .greater n
      = .ok ⟨Val.num (core t .greater).1, Val.num (core t .greater).2⟩ := by
    rw [boschloo_exact, if_neg hng, if_neg hneg, if_neg hz]
  constructor
  · rw [boschloo_exact, if_neg hng, if_neg hneg, if_neg hz]
    rw [hless, hgreater]
    by_cases hlt : (core t .less).2 < (core t .greater).2
    · have hv : valLt (Val.num (core t .less).2) (Val.num (core t .greater).2) = true := by
        simp [valLt, hlt]
      simp [hv, hlt, min_eq_left (le_of_lt hlt), valTwice]
    · have hv : valLt (Val.num (core t .less).2) (Val.num (core t .greater).2) = false := by
        simp [valLt, hlt]
      simp [hv, hlt, min_eq_right (le_of_not_lt hlt), valTwice]
  · intro h
    linarith

theorem boschloo_two_sided_double_min_witness :
    boschloo_exact coreW ⟨1, 1, 1, 1⟩ .twoSided 32
      = .ok ⟨Val.num (2/5), Val.num (6/5)⟩
    ∧ (1 : ℚ) < 2 * min (coreW ⟨1, 1, 1, 1⟩ .less).2 (coreW ⟨1, 1, 1, 1⟩ .greater).2 := by
  have h := boschloo_two_sided_double_min coreW ⟨1, 1, 1, 1⟩ 32
    (by decide) (by decide) (by decide) (by decide) (by decide) (by decide) (by decide)
  exact ⟨h.1.trans (by norm_num [coreW, min_def]), h.2 (by norm_num [coreW, min_def])⟩

/-- C10: for every 2x2 table of non-negative entries with a zero column sum
(and positive `n`), `barnard_exact` returns statistic NaN with p-value
exactly 1.0, and `boschloo_exact` returns NaN for both fields — without
raising, and for every numeric core (so no nuisance-parameter optimization is
performed). -/
theorem degenerate_zero_column_results (bcore : Table22 → Alternative → Bool → ℚ × ℚ)
    (score : Table22 → Alternative → ℚ × ℚ) (t : Table22) (alt : Alternative)
    (pooled : Bool) (n : Int)
    (hn : 0 < n) (ha : 0 ≤ t.a) (hb : 0 ≤ t.b) (hc : 0 ≤ t.c) (hd : 0 ≤ t.d)
    (hz : t.colSum1 = 0 ∨ t.colSum2 = 0) :
    barnard_exact bcore t alt pooled n = .ok ⟨Val.nan, Val.num 1⟩
    ∧ boschloo_exact score t alt n = .ok ⟨Val.nan, Val.nan⟩ := by
  have hng : ¬ n ≤ 0 := not_le.mpr hn
  have hneg : ¬ (t.a < 0 ∨ t.b < 0 ∨ t.c < 0 ∨ t.d < 0) := by
    push_neg
    exact ⟨ha, hb, hc, hd⟩
  constructor
  · rw [barnard_exact, if_neg hng, if_neg hneg, if_pos hz]
  · rw [boschloo_exact.eq_def, if_neg hng, if_neg hneg, if_pos hz]

theorem degenerate_zero_column_results_witness :
    barnard_exact (fun _ _ _ => (0, 0)) ⟨0, 1, 0, 2⟩ .twoSided true 32
      = .ok ⟨Val.nan, Val.num 1⟩
    ∧ boschloo_exact (fun _ _ => (0, 0)) ⟨0, 1, 0, 2⟩ .twoSided 32
      = .ok ⟨Val.nan, Val.nan⟩ :=
  degenerate_zero_column_results (fun _ _ _ => (0, 0)) (fun _ _ => (0, 0))
    ⟨0, 1, 0, 2⟩ .twoSided true 32
    (by decide) (by decide) (by decide) (by decide) (by decide) (by decide)

end Scipy
